import Mathlib

/-!
Verification development for the maprobe probe scheduler and metric
pipeline.  The Go sources are shallowly embedded: float64 metric values
are modelled as rationals, unix-second sample times and nanosecond
instants as integers, buffered channels as event lists, and Go maps as
association lists in iteration order.
-/

namespace Maprobe

/-! ### Reducers (part_000: sum, min, max, count, avg) -/

namespace Reducers

/-- Source `sum`: the accumulator starts at the float64 zero value and each
element is added. -/
def sum (values : List ℚ) : ℚ :=
  values.foldl (fun value v => value + v) 0

/-- Source `min`: the accumulator starts at the float64 zero value and each
element is combined with math.Min (order minimum on non-NaN floats). -/
def min (values : List ℚ) : ℚ :=
  values.foldl (fun value v => Min.min v value) 0

/-- Source `max`: the accumulator starts at the float64 zero value and each
element is combined with math.Max. -/
def max (values : List ℚ) : ℚ :=
  values.foldl (fun value v => Max.max v value) 0

/-- Source `count`: the length of the list as a float. -/
def count (values : List ℚ) : ℚ :=
  (values.length : ℚ)

/-- Source `avg`: sum divided by count. -/
def avg (values : List ℚ) : ℚ :=
  sum values / count values

end Reducers

/-! ### Config model (config.go) -/

/-- Tag naming one of the five bound reducer functions assigned to
`OutputConfig.calc` by `Config.validate`. -/
inductive ReducerTag where
  | sum
  | min
  | max
  | avg
  | count
deriving DecidableEq, Repr

/-- Modelled from the spec: the probe variant configs (PingProbeConfig,
TCPProbeConfig, HTTPProbeConfig, CommandProbeConfig) are defined outside
src/ and are, per the spec, opaque declarative sub-documents with no
function-typed fields; each is represented by its raw declarative
content. -/
structure OpaqueSubDocument where
  raw : String
deriving DecidableEq, Repr

/-- Source `OutputConfig`: the yaml fields `func` and `name`, plus the
derived bound reducer (source field `calc`, a Go func value that is nil
until validation binds it). -/
structure OutputConfig where
  func : String
  name : String
  calcFn : Option ReducerTag
deriving DecidableEq, Repr

/-- Source `MetricConfig`. -/
structure MetricConfig where
  name : String
  outputs : List OutputConfig
deriving DecidableEq, Repr

/-- Source `AggregateDefinition`. -/
structure AggregateDefinition where
  service : String
  role : String
  roles : List String
  statuses : List String
  metrics : List MetricConfig
deriving DecidableEq, Repr

/-- Source `ProbeDefinition`. -/
structure ProbeDefinition where
  service : String
  role : String
  roles : List String
  statuses : List String
  ping : Option OpaqueSubDocument
  tcp : Option OpaqueSubDocument
  http : Option OpaqueSubDocument
  command : Option OpaqueSubDocument
deriving DecidableEq, Repr

/-- Source `Config` (the unexported `location` field included, as
reflect.DeepEqual compares unexported fields too). -/
structure Config where
  location : String
  apiKey : String
  probes : List ProbeDefinition
  postProbedMetrics : Bool
  aggregates : List AggregateDefinition
  postAggregatedMetrics : Bool
  probeOnly : Option Bool
deriving DecidableEq, Repr

/-- Go strings.ToLower as a per-rune map (all recognized func names are
ASCII); written by structural recursion on the character list so that the
kernel can evaluate it. -/
def lowerString (s : String) : String :=
  String.mk (s.data.map Char.toLower)

/-- Source `validate`, switch on strings.ToLower(oc.Func): the reducer tag
bound to an output func name, none for an unrecognized name. -/
def bindCalc (funcName : String) : Option ReducerTag :=
  let f := lowerString funcName
  if f = "sum" then some ReducerTag.sum
  else if f = "min" then some ReducerTag.min
  else if f = "max" then some ReducerTag.max
  else if f = "avg" ∨ f = "average" then some ReducerTag.avg
  else if f = "count" then some ReducerTag.count
  else none

/-- Source `initialize` per definition: the legacy single `role` is appended
to the `roles` list when it is set (non-empty). -/
def roleToRoles (role : String) (roles : List String) : List String :=
  if role ≠ "" then roles ++ [role] else roles

/-- Source `initialize` on the whole config: normalize role into roles for
every probe definition and every aggregate definition. -/
def Config.normalize (c : Config) : Config :=
  { c with
    probes := c.probes.map fun pd => { pd with roles := roleToRoles pd.role pd.roles }
    aggregates := c.aggregates.map fun ad => { ad with roles := roleToRoles ad.role ad.roles } }

/-- Source `validate`: an empty API key is the only error; the deprecated
probe_only flag is translated into post_probed_metrics with a warning; every
output gets its reducer bound from its func name, with a warning for each
unrecognized name.  Returns (error, updated config, warning log lines). -/
def Config.validate (c : Config) : Option String × Config × List String :=
  if c.apiKey = "" then (some "no API Key", c, [])
  else
    let step1 : Config × List String :=
      match c.probeOnly with
      | some o => ({ c with postProbedMetrics := !o },
          ["configuration probe_only is not deprecated. use post_probed_metrics"])
      | none => (c, [])
    let c1 := step1.1
    let c2 := { c1 with aggregates := c1.aggregates.map fun ag =>
      { ag with metrics := ag.metrics.map fun mc =>
        { mc with outputs := mc.outputs.map fun oc =>
          { oc with calcFn := bindCalc oc.func } } } }
    let warns := c1.aggregates.flatMap fun ag => ag.metrics.flatMap fun mc =>
      mc.outputs.filterMap fun oc =>
        if (bindCalc oc.func).isNone then
          some ("func " ++ oc.func ++ " is not available for outputs " ++ mc.name)
        else none
    (none, c2, step1.2 ++ warns)

/-- Source `LoadConfig` after fetch and yaml unmarshal: run initialize and
then validate on the parsed config. -/
def LoadConfig (parsed : Config) : Option String × Config × List String :=
  (Config.normalize parsed).validate

/-! ### reflect.DeepEqual over the config (part_000 line 100) -/

/-- Go reflect.DeepEqual on the func-typed `calc` field: func values are
deeply equal only when both are nil. -/
def funcFieldDeepEqual (a b : Option ReducerTag) : Bool :=
  a.isNone && b.isNone

/-- Pairwise deep equality of two lists (Go slices are deeply equal when
the lengths match and corresponding elements are deeply equal). -/
def listDeepEqual {α : Type} (eq : α → α → Bool) (as bs : List α) : Bool :=
  as.length == bs.length && (List.zip as bs).all fun p => eq p.1 p.2

/-- Deep equality of two OutputConfig values: structural on the declarative
fields, Go func semantics on the bound reducer. -/
def OutputConfig.deepEqual (a b : OutputConfig) : Bool :=
  a.func == b.func && a.name == b.name && funcFieldDeepEqual a.calcFn b.calcFn

/-- Deep equality of two MetricConfig values. -/
def MetricConfig.deepEqual (a b : MetricConfig) : Bool :=
  a.name == b.name && listDeepEqual OutputConfig.deepEqual a.outputs b.outputs

/-- Deep equality of two AggregateDefinition values. -/
def AggregateDefinition.deepEqual (a b : AggregateDefinition) : Bool :=
  a.service == b.service && a.role == b.role && a.roles == b.roles &&
  a.statuses == b.statuses && listDeepEqual MetricConfig.deepEqual a.metrics b.metrics

/-- Source comparison `reflect.DeepEqual(conf, newConf)`: structural on all
fields except that the bound reducer func fields compare by Go func
semantics.  ProbeDefinition holds no func-typed field, so it compares
structurally. -/
def Config.deepEqual (a b : Config) : Bool :=
  a.location == b.location && a.apiKey == b.apiKey &&
  decide (a.probes = b.probes) &&
  a.postProbedMetrics == b.postProbedMetrics &&
  listDeepEqual AggregateDefinition.deepEqual a.aggregates b.aggregates &&
  a.postAggregatedMetrics == b.postAggregatedMetrics &&
  a.probeOnly == b.probeOnly

/-- Source `Run` reload step (part_000 lines 100-104): the in-memory config
is swapped and "config reloaded" logged exactly when DeepEqual is false. -/
def reloadSwaps (conf newConf : Config) : Bool :=
  !(Config.deepEqual conf newConf)

/-- A parsed config shaped like the repository example (part_001): one
probe definition and one aggregate whose outputs use the funcs sum and
avg.  The calcFn fields are nil before validation binds them. -/
def exampleParsedConfig : Config :=
  { location := "config.yaml"
    apiKey := "DUMMY"
    probes := [
      { service := "prod", role := "EC2", roles := [], statuses := ["working", "standby"]
        ping := some ⟨"address count timeout"⟩
        tcp := none, http := none, command := none }]
    postProbedMetrics := true
    aggregates := [
      { service := "prod", role := "web", roles := [], statuses := []
        metrics := [
          { name := "custom.nginx.requests.requests"
            outputs := [
              { func := "sum", name := "custom.nginx.requests.sum_requests", calcFn := none },
              { func := "avg", name := "custom.nginx.requests.avg_requests", calcFn := none }] }] }]
    postAggregatedMetrics := true
    probeOnly := none }

/-! ### Aggregate runner (part_000, runAggregates lines 197-253) -/

/-- Source `metricTimeMargin = -3 * time.Minute`, in nanoseconds. -/
def metricTimeMargin : ℤ := -3 * (60 * 1000000000)

/-- The latest-value lookup result for one host and one metric name: the
map entry may be absent, a nil pointer, a non-float64 value, or a float64
value carrying its unix-second time. -/
inductive LatestVal where
  | absent
  | nullVal
  | nonFloat
  | floatVal (v : ℚ) (t : ℤ)
deriving DecidableEq, Repr

/-- Source freshness gate `ts.After(now.Add(metricTimeMargin))` with
`ts = time.Unix(t, 0)`: instants are nanoseconds since the epoch and After
is strict. -/
def accepts (now : ℤ) (t : ℤ) : Bool :=
  decide (now + metricTimeMargin < t * 1000000000)

/-- Source scan over the latest values for one metric name (the body of
the `for hostID, metrics := range latest` loop): accepted float values are
appended in iteration order and the timestamp accumulator, seeded with the
float64 zero value, takes the max of the accepted sample times (exact on
unix-second times). -/
def scanLatest (now : ℤ) (entries : List LatestVal) : List ℚ × ℤ :=
  entries.foldl
    (fun acc e =>
      match e with
      | LatestVal.floatVal v t =>
          if accepts now t then (acc.1 ++ [v], Max.max t acc.2) else acc
      | _ => acc)
    ([], 0)

/-- The accepted (value, time) pairs of a scan, in iteration order: the
float64 entries that pass the freshness gate. -/
def acceptedPairs (now : ℤ) : List LatestVal → List (ℚ × ℤ)
  | [] => []
  | LatestVal.floatVal v t :: rest =>
      if accepts now t then (v, t) :: acceptedPairs now rest else acceptedPairs now rest
  | _ :: rest => acceptedPairs now rest

/-- Source switch on strings.ToLower(output.Func) inside runAggregates: the
reduced value for one output.  The switch has no default case, so an
unrecognized func name leaves `value` at the float64 zero value. -/
def applyFunc (funcName : String) (values : List ℚ) : ℚ :=
  let f := lowerString funcName
  if f = "sum" then Reducers.sum values
  else if f = "min" then Reducers.min values
  else if f = "max" then Reducers.max values
  else if f = "avg" ∨ f = "average" then Reducers.avg values
  else if f = "count" then Reducers.count values
  else 0

/-- Source `ServiceMetric` (timestamp as unix seconds, from
`time.Unix(int64(timestamp), 0)`). -/
structure ServiceMetric where
  service : String
  name : String
  value : ℚ
  timestamp : ℤ
deriving DecidableEq, Repr

/-- Source per-MetricConfig body of runAggregates: scan the latest values,
skip the metric entirely when no value was accepted, otherwise send one
ServiceMetric per output with the reduced value and the max accepted
sample time. -/
def runAggregateMetric (service : String) (now : ℤ) (mc : MetricConfig)
    (entries : List LatestVal) : List ServiceMetric :=
  let scanned := scanLatest now entries
  if scanned.1.isEmpty then []
  else mc.outputs.map fun oc =>
    { service := service, name := oc.name
      value := applyFunc oc.func scanned.1, timestamp := scanned.2 }

/-! ### Metric shipping workers (part_000 lines 285-323) -/

/-- Source `PostMetricBufferLength`. -/
def postMetricBufferLength : ℕ := 100

/-- One wake-up of the shipper select loop: a metric received from the
channel, the channel closed, or the 10 s ticker firing. -/
inductive WEvent (M : Type) where
  | recv (m : M)
  | closed
  | tick
deriving DecidableEq, Repr

/-- Result of one iteration of the shipper loop: the buffer afterwards, the
batch handed to the POST call if one was attempted, and whether the loop
keeps running. -/
structure StepResult (M : Type) where
  buffer : List M
  attempt : Option (List M)
  running : Bool
deriving DecidableEq, Repr

/-- Source body of the postHostMetricWorker for-loop: a received metric is
appended and the buffer flushed only at the cap; a tick or channel close
flushes a non-empty buffer; a failed POST leaves the buffer as-is (the
worker sleeps and continues), a successful POST truncates it; channel close
clears the running flag. -/
def postMetricWorkerStep {M : Type} (buf : List M) (ev : WEvent M) (postOk : Bool) :
    StepResult M :=
  match ev with
  | WEvent.recv m =>
      let mvs := buf ++ [m]
      if mvs.length < postMetricBufferLength then ⟨mvs, none, true⟩
      else if postOk then ⟨[], some mvs, true⟩ else ⟨mvs, some mvs, true⟩
  | WEvent.tick =>
      if buf.isEmpty then ⟨buf, none, true⟩
      else if postOk then ⟨[], some buf, true⟩ else ⟨buf, some buf, true⟩
  | WEvent.closed =>
      if buf.isEmpty then ⟨buf, none, false⟩
      else if postOk then ⟨[], some buf, false⟩ else ⟨buf, some buf, false⟩

/-- Source `postServiceMetricWorker` (part_000 lines 321-323): the body
only signals the wait group and returns; it never receives from its channel
and never posts, whatever events occur.  The result is the list of
(service, batch) POST calls it performs. -/
def postServiceMetricWorkerPosts (events : List (WEvent ServiceMetric)) :
    List (String × List ServiceMetric) :=
  match events with
  | _ => []

/-! ### Probe runner spawn interval (part_000 lines 131-134) -/

/-- Source `ProbeInterval = 60 * time.Second`, in nanoseconds. -/
def probeIntervalNs : ℕ := 60 * 1000000000

/-- Source spawn-interval computation: integer division of the interval by
the host count and then by 2, capped at one second. -/
def spawnInterval (interval n : ℕ) : ℕ :=
  let d := interval / n / 2
  if d > 1000000000 then 1000000000 else d

/-! ### GenerateProbes (config.go lines 48-88) -/

/-- Turn a generation outcome into the probe it produced, none on error. -/
def exceptToOption {E P : Type} : Except E P → Option P
  | Except.ok p => some p
  | Except.error _ => none

/-- One nil-check block of GenerateProbes: a nil variant config contributes
nothing, a generation error is logged and skipped, a generated probe is
appended. -/
def appendVariant {E P : Type} (probes : List P) (cfg : Option (Except E P)) : List P :=
  match cfg with
  | none => probes
  | some (Except.error _) => probes
  | some (Except.ok p) => probes ++ [p]

/-- Source `GenerateProbes`: the four variant configs are checked in the
fixed order ping, tcp, http, command; each populated one has its probe
generated against the host and appended on success.  A variant slot is
none when the config is nil, otherwise it carries the outcome of
GenerateProbe for this host. -/
def GenerateProbes {E P : Type} (ping tcp http command : Option (Except E P)) : List P :=
  appendVariant (appendVariant (appendVariant (appendVariant [] ping) tcp) http) command

/-! ### Helper lemmas -/

/-- The aggregate scan loop computes, for any starting accumulator, the
accepted values in iteration order and the running max of the accepted
sample times. -/
theorem scanLoop_characterization (now : ℤ) :
    ∀ (entries : List LatestVal) (acc : List ℚ × ℤ),
      List.foldl
        (fun acc e =>
          match e with
          | LatestVal.floatVal v t =>
              if accepts now t then (acc.1 ++ [v], Max.max t acc.2) else acc
          | _ => acc)
        acc entries
      = (acc.1 ++ (acceptedPairs now entries).map Prod.fst,
         ((acceptedPairs now entries).map Prod.snd).foldl (fun x t => Max.max t x) acc.2) := by
  intro entries
  induction entries with
  | nil => intro acc; simp [acceptedPairs]
  | cons e rest ih =>
    intro acc
    cases e with
    | floatVal v t =>
      by_cases h : accepts now t
      · simp [acceptedPairs, h, List.foldl_cons, ih]
      · simp [acceptedPairs, h, List.foldl_cons, ih]
    | absent => simp [acceptedPairs, List.foldl_cons, ih]
    | nullVal => simp [acceptedPairs, List.foldl_cons, ih]
    | nonFloat => simp [acceptedPairs, List.foldl_cons, ih]

/-- The scan result in terms of the accepted pairs. -/
theorem scanLatest_eq (now : ℤ) (entries : List LatestVal) :
    scanLatest now entries
      = ((acceptedPairs now entries).map Prod.fst,
         ((acceptedPairs now entries).map Prod.snd).foldl (fun x t => Max.max t x) 0) := by
  have h := scanLoop_characterization now entries ([], 0)
  simpa [scanLatest] using h

/-- A max fold dominates its seed and every element of the list. -/
theorem foldl_max_le (l : List ℤ) :
    ∀ a : ℤ, a ≤ l.foldl (fun x t => Max.max t x) a ∧
      ∀ y ∈ l, y ≤ l.foldl (fun x t => Max.max t x) a := by
  induction l with
  | nil => intro a; simp
  | cons t rest ih =>
    intro a
    obtain ⟨h1, h2⟩ := ih (Max.max t a)
    refine ⟨le_trans (le_max_right t a) h1, ?_⟩
    intro y hy
    rcases List.mem_cons.mp hy with rfl | hy
    · exact le_trans (le_max_left y a) h1
    · exact h2 y hy

/-- A max fold returns either its seed or an element of the list. -/
theorem foldl_max_choice (l : List ℤ) :
    ∀ a : ℤ, l.foldl (fun x t => Max.max t x) a = a ∨
      l.foldl (fun x t => Max.max t x) a ∈ l := by
  induction l with
  | nil => intro a; left; rfl
  | cons t rest ih =>
    intro a
    rcases ih (Max.max t a) with h | h
    · rcases max_choice t a with hm | hm
      · right
        rw [List.foldl_cons, h, hm]
        exact List.mem_cons_self t rest
      · left
        rw [List.foldl_cons, h, hm]
    · right
      exact List.mem_cons_of_mem t h

/-- Every accepted pair passed the freshness gate. -/
theorem acceptedPairs_mem_accepts (now : ℤ) :
    ∀ (entries : List LatestVal) (p : ℚ × ℤ),
      p ∈ acceptedPairs now entries → accepts now p.2 = true := by
  intro entries
  induction entries with
  | nil => intro p hp; simp [acceptedPairs] at hp
  | cons e rest ih =>
    intro p hp
    cases e with
    | floatVal v t =>
      by_cases h : accepts now t
      · simp only [acceptedPairs, h, if_true] at hp
        rcases List.mem_cons.mp hp with rfl | hp
        · exact h
        · exact ih p hp
      · simp only [acceptedPairs, h, if_false] at hp
        exact ih p hp
    | absent => exact ih p hp
    | nullVal => exact ih p hp
    | nonFloat => exact ih p hp

/-- After the unix epoch plus three minutes, every accepted sample time is
positive. -/
theorem accepts_pos (now t : ℤ) (hnow : 180 * 1000000000 ≤ now)
    (h : accepts now t = true) : 0 < t := by
  simp only [accepts, metricTimeMargin, decide_eq_true_eq] at h
  omega

/-- An output func name that validate leaves unbound makes the aggregation
switch fall through to the float64 zero value. -/
theorem applyFunc_of_unbound (funcName : String) (values : List ℚ)
    (h : bindCalc funcName = none) : applyFunc funcName values = 0 := by
  simp only [bindCalc] at h
  simp only [applyFunc]
  split_ifs at h ⊢
  all_goals simp_all

/-! ### Claim theorems -/

/-- C1: the claim says min([3]) = 3 and max([-2]) = -2 (true extremum, no
hidden 0 seed), but the source seeds both accumulators with the float64
zero value, so min over the all-positive list [3] and max over the
all-negative list [-2] both return 0, which is not even an element of the
input. -/
theorem C1_min_max_zero_seed :
    Reducers.min [(3 : ℚ)] = 0 ∧ Reducers.max [(-2 : ℚ)] = 0 ∧
      ¬ ((0 : ℚ) ∈ [(3 : ℚ)]) ∧ ¬ ((0 : ℚ) ∈ [(-2 : ℚ)]) := by
  refine ⟨?_, ?_, by decide, by decide⟩
  · simp [Reducers.min, min_def]
  · simp [Reducers.max, max_def]

/-- C2: the claim says the service-metric shipper follows the host-metric
shipper contract, but the source body of postServiceMetricWorker only
signals the wait group: it posts nothing for any stream of channel events,
while the host-worker contract embedded in postMetricWorkerStep flushes a
buffered metric when the channel closes. -/
theorem C2_service_worker_noop :
    (∀ events, postServiceMetricWorkerPosts events = []) ∧
    postServiceMetricWorkerPosts
        [WEvent.recv ⟨"prod", "custom.x", 1, 100⟩, WEvent.closed] = [] ∧
    (postMetricWorkerStep (M := ServiceMetric)
        [⟨"prod", "custom.x", 1, 100⟩] WEvent.closed true).attempt =
      some [⟨"prod", "custom.x", 1, 100⟩] := by
  exact ⟨fun _ => rfl, rfl, by decide⟩

/-- C3 counterexample: the claim says an output with an unrecognized func
is silently skipped at aggregation time with no ServiceMetric emitted, but
on a metric with one fresh value 1 at time 200 and the single output func
"median", runAggregates emits one ServiceMetric with the float64 zero
value (the switch has no default case). -/
theorem C3_unknown_func_not_skipped :
    runAggregateMetric "prod" (200 * 1000000000)
        ⟨"custom.m", [⟨"median", "custom.m.out", none⟩]⟩
        [LatestVal.floatVal 1 200]
      = [⟨"prod", "custom.m.out", 0, 200⟩] := by
  decide

/-- C3 amended: an OutputConfig whose func (lowercased) is unrecognized
yields a validation warning and no validation error, and at aggregation
time the output is NOT skipped: whenever the metric has at least one
accepted value, a ServiceMetric carrying the zero value is emitted for
that output. -/
theorem C3_unknown_func_warns_and_emits
    (loc apiKey service mcName : String) (oc : OutputConfig)
    (outputs : List OutputConfig) (now : ℤ) (entries : List LatestVal)
    (hkey : apiKey ≠ "") (hfunc : bindCalc oc.func = none)
    (hmem : oc ∈ outputs) (hvals : (scanLatest now entries).1 ≠ []) :
    (Config.validate
        ⟨loc, apiKey, [], true, [⟨service, "", [], [], [⟨mcName, outputs⟩]⟩], true, none⟩).1
        = none ∧
    ("func " ++ oc.func ++ " is not available for outputs " ++ mcName) ∈
      (Config.validate
        ⟨loc, apiKey, [], true, [⟨service, "", [], [], [⟨mcName, outputs⟩]⟩], true, none⟩).2.2 ∧
    ServiceMetric.mk service oc.name 0 (scanLatest now entries).2 ∈
      runAggregateMetric service now ⟨mcName, outputs⟩ entries := by
  refine ⟨?_, ?_, ?_⟩
  · simp [Config.validate, hkey]
  · simp only [Config.validate, hkey, if_neg, if_false]
    simp only [List.flatMap_cons, List.flatMap_nil, List.append_nil, List.nil_append]
    exact List.mem_filterMap.mpr ⟨oc, hmem, by simp [hfunc]⟩
  · have hne : (scanLatest now entries).1.isEmpty = false := by
      cases hsc : (scanLatest now entries).1 with
      | nil => exact absurd hsc hvals
      | cons a l => rfl
    simp only [runAggregateMetric, hne, Bool.false_eq_true, if_false]
    refine List.mem_map.mpr ⟨oc, hmem, ?_⟩
    rw [applyFunc_of_unbound oc.func _ hfunc]

/-- C3 witness: concrete instance with api key "K", output func "median"
and a single fresh sample. -/
theorem C3_unknown_func_warns_and_emits_witness :
    ("func " ++ "median" ++ " is not available for outputs " ++ "m") ∈
      (Config.validate
        ⟨"f", "K", [], true, [⟨"prod", "", [], [], [⟨"m", [⟨"median", "out", none⟩]⟩]⟩], true, none⟩).2.2 ∧
    ServiceMetric.mk "prod" "out" 0
        (scanLatest (200 * 1000000000) [LatestVal.floatVal 1 200]).2 ∈
      runAggregateMetric "prod" (200 * 1000000000) ⟨"m", [⟨"median", "out", none⟩]⟩
        [LatestVal.floatVal 1 200] := by
  have h := C3_unknown_func_warns_and_emits "f" "K" "prod" "m"
    ⟨"median", "out", none⟩ [⟨"median", "out", none⟩] (200 * 1000000000)
    [LatestVal.floatVal 1 200] (by decide) (by decide) (by decide) (by decide)
  exact ⟨h.2.1, h.2.2⟩

/-- C4: the claim says re-loading identical bytes never swaps the config,
but after validation binds the reducer funcs, reflect.DeepEqual is false
even between a loaded config and itself (Go func values are deeply equal
only when both are nil), so for the repository example config the
orchestrator swaps and logs "config reloaded" on every tick although the
bytes are identical. -/
theorem C4_reload_not_idempotent :
    (LoadConfig exampleParsedConfig).1 = none ∧
    reloadSwaps (LoadConfig exampleParsedConfig).2.1
        (LoadConfig exampleParsedConfig).2.1 = true := by
  decide

/-- C8 counterexample: the claim says role ∈ roles iff role was set, but
for a definition with unset role and list-form roles containing the empty
string, normalization leaves roles = [""] and the unset role "" is a
member. -/
theorem C8_role_membership_cex :
    ¬ (((("" : String) ∈ roleToRoles "" [""])) ↔ ("" : String) ≠ "") := by
  decide

/-- C8 amended: after load, every definition's roles list is the original
list-form roles with the legacy role appended when it was set; hence an
element belongs to the normalized roles iff it was an original roles entry
or equals the set legacy role, role is always a member when it was set,
and the converse of the membership claim holds provided the empty string
was not among the original list-form roles. -/
theorem C8_roles_normalized (role : String) (roles : List String) :
    (∀ x, x ∈ roleToRoles role roles ↔ x ∈ roles ∨ (role ≠ "" ∧ x = role)) ∧
    (role ≠ "" → role ∈ roleToRoles role roles) ∧
    ("" ∉ roles → ((role ∈ roleToRoles role roles) ↔ role ≠ "")) := by
  by_cases hr : role = ""
  · subst hr
    refine ⟨fun x => ?_, fun h => absurd rfl h, fun h => ?_⟩
    · simp [roleToRoles]
    · simp [roleToRoles, h]
  · refine ⟨fun x => ?_, fun _ => ?_, fun _ => ?_⟩
    · simp only [roleToRoles, if_pos hr, List.mem_append, List.mem_singleton]
      constructor
      · rintro (h | rfl)
        · exact Or.inl h
        · exact Or.inr ⟨hr, rfl⟩
      · rintro (h | ⟨_, rfl⟩)
        · exact Or.inl h
        · exact Or.inr rfl
    · simp [roleToRoles, hr]
    · simp [roleToRoles, hr]

/-- C8 amended witness: with legacy role "r" and list-form roles ["a"],
the role is a member after normalization, and membership is equivalent to
the role being set. -/
theorem C8_roles_normalized_witness :
    (("r" : String) ∈ roleToRoles "r" ["a"]) ∧
    ((("r" : String) ∈ roleToRoles "r" ["a"]) ↔ ("r" : String) ≠ "") := by
  exact ⟨(C8_roles_normalized "r" ["a"]).2.1 (by decide),
    (C8_roles_normalized "r" ["a"]).2.2 (by decide)⟩

/-- C5: in the host-metric shipper loop, a flush whose POST fails leaves
the buffer exactly equal to the attempted batch; the buffer becomes empty
only if it already was or a POST succeeded; a successful POST truncates
the buffer; and after a failed flush the next tick retries the identical
batch. -/
theorem C5_failed_post_keeps_buffer {M : Type} (buf : List M) (ev : WEvent M)
    (postOk : Bool) :
    (∀ b, (postMetricWorkerStep buf ev postOk).attempt = some b → postOk = false →
      (postMetricWorkerStep buf ev postOk).buffer = b) ∧
    (∀ b, (postMetricWorkerStep buf ev postOk).attempt = some b → postOk = true →
      (postMetricWorkerStep buf ev postOk).buffer = []) ∧
    ((postMetricWorkerStep buf ev postOk).buffer = [] →
      buf = [] ∨ ((postMetricWorkerStep buf ev postOk).attempt ≠ none ∧ postOk = true)) ∧
    (∀ b r2, (postMetricWorkerStep buf ev postOk).attempt = some b → postOk = false →
      (postMetricWorkerStep (postMetricWorkerStep buf ev postOk).buffer
        (WEvent.tick (M := M)) r2).attempt = some b) := by
  have h1 : ∀ b, (postMetricWorkerStep buf ev postOk).attempt = some b →
      postOk = false → (postMetricWorkerStep buf ev postOk).buffer = b := by
    intro b hb hpost
    subst hpost
    cases ev with
    | recv m =>
      simp only [postMetricWorkerStep] at hb ⊢
      split_ifs at hb ⊢ with hc1 hc2
      all_goals simp_all
    | tick =>
      simp only [postMetricWorkerStep] at hb ⊢
      split_ifs at hb ⊢ with hc1 hc2
      all_goals simp_all
    | closed =>
      simp only [postMetricWorkerStep] at hb ⊢
      split_ifs at hb ⊢ with hc1 hc2
      all_goals simp_all
  have hne : ∀ b, (postMetricWorkerStep buf ev postOk).attempt = some b → b ≠ [] := by
    intro b hb
    cases ev with
    | recv m =>
      simp only [postMetricWorkerStep] at hb
      split_ifs at hb
      all_goals
        (have hb2 : buf ++ [m] = b := by simpa using hb
         subst hb2
         simp)
    | tick =>
      simp only [postMetricWorkerStep] at hb
      split_ifs at hb
      all_goals
        (have hb2 : buf = b := by simpa using hb
         subst hb2
         simp_all [List.isEmpty_iff])
    | closed =>
      simp only [postMetricWorkerStep] at hb
      split_ifs at hb
      all_goals
        (have hb2 : buf = b := by simpa using hb
         subst hb2
         simp_all [List.isEmpty_iff])
  refine ⟨h1, ?_, ?_, ?_⟩
  · intro b hb hpost
    subst hpost
    cases ev with
    | recv m =>
      simp only [postMetricWorkerStep] at hb ⊢
      split_ifs at hb ⊢
      all_goals simp_all
    | tick =>
      simp only [postMetricWorkerStep] at hb ⊢
      split_ifs at hb ⊢
      all_goals simp_all
    | closed =>
      simp only [postMetricWorkerStep] at hb ⊢
      split_ifs at hb ⊢
      all_goals simp_all
  · intro h
    cases ev with
    | recv m =>
      simp only [postMetricWorkerStep] at h ⊢
      split_ifs at h ⊢ with hc1 hc2
      all_goals simp_all
    | tick =>
      simp only [postMetricWorkerStep] at h ⊢
      split_ifs at h ⊢ with hc1 hc2
      all_goals simp_all [List.isEmpty_iff]
    | closed =>
      simp only [postMetricWorkerStep] at h ⊢
      split_ifs at h ⊢ with hc1 hc2
      all_goals simp_all [List.isEmpty_iff]
  · intro b r2 hb hpost
    have hbuf := h1 b hb hpost
    have hbne := hne b hb
    rw [hbuf]
    cases hbe : b.isEmpty with
    | true => exact absurd (by simpa [List.isEmpty_iff] using hbe) hbne
    | false => cases r2 <;> simp [postMetricWorkerStep, hbe]

/-- C5 witness: a tick flush of the single buffered metric 5 fails, the
buffer still holds [5], and the next tick retries the identical batch. -/
theorem C5_failed_post_keeps_buffer_witness :
    (postMetricWorkerStep [(5 : ℕ)] WEvent.tick false).buffer = [5] ∧
    (postMetricWorkerStep (postMetricWorkerStep [(5 : ℕ)] WEvent.tick false).buffer
      (WEvent.tick (M := ℕ)) true).attempt = some [5] := by
  exact ⟨(C5_failed_post_keeps_buffer [(5 : ℕ)] WEvent.tick false).1 [5] (by decide) rfl,
    (C5_failed_post_keeps_buffer [(5 : ℕ)] WEvent.tick false).2.2.2 [5] true (by decide) rfl⟩

/-- C6: a latest-value sample is accepted by the freshness gate iff its
unix-second time, as an instant, is strictly later than now minus three
minutes; a sample at or before that bound contributes nothing to the scan:
deleting it from the latest values leaves the scan result unchanged. -/
theorem C6_freshness_gate (now : ℤ) (v : ℚ) (t : ℤ) (pre post : List LatestVal)
    (h : t * 1000000000 ≤ now - 180 * 1000000000) :
    scanLatest now (pre ++ LatestVal.floatVal v t :: post) = scanLatest now (pre ++ post) ∧
    (∀ s : ℤ, accepts now s = true ↔ now - 180 * 1000000000 < s * 1000000000) := by
  have hacc : accepts now t = false := by
    simp only [accepts, metricTimeMargin, decide_eq_false_iff_not, not_lt]
    omega
  constructor
  · unfold scanLatest
    rw [List.foldl_append, List.foldl_append, List.foldl_cons]
    simp [hacc]
  · intro s
    simp only [accepts, metricTimeMargin, decide_eq_true_eq]
    omega

/-- C6 witness: with now = 200 s (in nanoseconds), the sample at 1 s is
outdated and dropped while the boundary check accepts 200 s. -/
theorem C6_freshness_gate_witness :
    scanLatest (200 * 1000000000)
        [LatestVal.floatVal 5 1, LatestVal.floatVal 2 200]
      = scanLatest (200 * 1000000000) [LatestVal.floatVal 2 200] ∧
    (accepts (200 * 1000000000) 200 = true ↔
      (200 : ℤ) * 1000000000 - 180 * 1000000000 < 200 * 1000000000) := by
  have h := C6_freshness_gate (200 * 1000000000) 5 1 []
    [LatestVal.floatVal 2 200] (by decide)
  exact ⟨h.1, h.2 200⟩

/-- C7: for every MetricConfig in an aggregate run, values are empty iff
no sample was accepted and then nothing is emitted; otherwise exactly one
ServiceMetric per OutputConfig is emitted and every emitted timestamp
equals the scan timestamp, which is the maximum sample time among the
accepted values. -/
theorem C7_per_metric_emission (service : String) (now : ℤ) (mc : MetricConfig)
    (entries : List LatestVal) (hnow : 180 * 1000000000 ≤ now) :
    ((scanLatest now entries).1 = [] ↔ acceptedPairs now entries = []) ∧
    ((scanLatest now entries).1 = [] → runAggregateMetric service now mc entries = []) ∧
    ((scanLatest now entries).1 ≠ [] →
      (runAggregateMetric service now mc entries).length = mc.outputs.length ∧
      (∀ m ∈ runAggregateMetric service now mc entries,
        m.timestamp = (scanLatest now entries).2) ∧
      (∃ p ∈ acceptedPairs now entries, p.2 = (scanLatest now entries).2) ∧
      (∀ p ∈ acceptedPairs now entries, p.2 ≤ (scanLatest now entries).2)) := by
  have hchar := scanLatest_eq now entries
  have hfst : (scanLatest now entries).1 = (acceptedPairs now entries).map Prod.fst := by
    rw [hchar]
  have hsnd : (scanLatest now entries).2
      = ((acceptedPairs now entries).map Prod.snd).foldl (fun x t => Max.max t x) 0 := by
    rw [hchar]
  have hiff : (scanLatest now entries).1 = [] ↔ acceptedPairs now entries = [] := by
    rw [hfst, List.map_eq_nil_iff]
  refine ⟨hiff, ?_, ?_⟩
  · intro h
    have : (scanLatest now entries).1.isEmpty = true := by rw [h]; rfl
    simp [runAggregateMetric, this]
  · intro hne
    have hemp : (scanLatest now entries).1.isEmpty = false := by
      cases hsc : (scanLatest now entries).1 with
      | nil => exact absurd hsc hne
      | cons a l => rfl
    have hpairs : acceptedPairs now entries ≠ [] := fun h => hne (hiff.mpr h)
    refine ⟨?_, ?_, ?_, ?_⟩
    · simp [runAggregateMetric, hemp]
    · intro m hm
      simp only [runAggregateMetric, hemp, Bool.false_eq_true, if_false] at hm
      obtain ⟨oc, _, rfl⟩ := List.mem_map.mp hm
      rfl
    · have hch := foldl_max_choice ((acceptedPairs now entries).map Prod.snd) 0
      rcases hch with hz | hmem
      · obtain ⟨p0, hp0⟩ := List.exists_mem_of_ne_nil _ hpairs
        have hp0pos : 0 < p0.2 :=
          accepts_pos now p0.2 hnow (acceptedPairs_mem_accepts now entries p0 hp0)
        have hle := (foldl_max_le ((acceptedPairs now entries).map Prod.snd) 0).2
          p0.2 (List.mem_map_of_mem Prod.snd hp0)
        rw [hz] at hle
        omega
      · obtain ⟨p, hp, hpeq⟩ := List.mem_map.mp hmem
        exact ⟨p, hp, by rw [hsnd]; exact hpeq⟩
    · intro p hp
      have hle := (foldl_max_le ((acceptedPairs now entries).map Prod.snd) 0).2
        p.2 (List.mem_map_of_mem Prod.snd hp)
      rw [hsnd]
      exact hle

/-- C7 witness: two fresh samples at times 200 and 150 with a single sum
output produce exactly one emitted metric. -/
theorem C7_per_metric_emission_witness :
    (runAggregateMetric "prod" (200 * 1000000000) ⟨"m", [⟨"sum", "out", none⟩]⟩
      [LatestVal.floatVal 1 200, LatestVal.floatVal 2 150]).length = 1 := by
  have h := C7_per_metric_emission "prod" (200 * 1000000000)
    ⟨"m", [⟨"sum", "out", none⟩]⟩
    [LatestVal.floatVal 1 200, LatestVal.floatVal 2 150] (by decide)
  exact (h.2.2 (by decide)).1

/-- C9: for a non-empty host list of size n, the probe runner's spawn
interval is min(ProbeInterval / (2 n), 1 second) under truncating integer
division, and it is zero as soon as the interval is smaller than 2 n. -/
theorem C9_spawn_interval (interval n : ℕ) (_h : 1 ≤ n) :
    spawnInterval interval n = Min.min (interval / (2 * n)) 1000000000 ∧
    (interval < 2 * n → spawnInterval interval n = 0) := by
  have hd : interval / n / 2 = interval / (2 * n) := by
    rw [Nat.div_div_eq_div_mul, Nat.mul_comm]
  constructor
  · simp only [spawnInterval, hd]
    split_ifs with h1
    · omega
    · omega
  · intro hlt
    have hz : interval / (2 * n) = 0 := Nat.div_eq_of_lt hlt
    simp only [spawnInterval, hd, hz]
    rfl

/-- C9 witness: with the default 60 s interval, 31 hosts give the
truncated interval 967741935 ns (below the 1 s cap), and an interval
smaller than twice the host count gives a zero spawn interval. -/
theorem C9_spawn_interval_witness :
    spawnInterval probeIntervalNs 31 = Min.min (probeIntervalNs / (2 * 31)) 1000000000 ∧
    spawnInterval probeIntervalNs probeIntervalNs = 0 := by
  exact ⟨(C9_spawn_interval probeIntervalNs 31 (by decide)).1,
    (C9_spawn_interval probeIntervalNs probeIntervalNs (by decide)).2 (by decide)⟩

/-- C10: GenerateProbes returns, in the fixed order ping, tcp, http,
command, exactly the probes of the populated variant configs whose
generation succeeded, and a generation error in any one variant slot
yields the same probe list as that variant being absent, leaving the other
variants untouched. -/
theorem C10_generate_probes {E P : Type}
    (ping tcp http command : Option (Except E P)) :
    GenerateProbes ping tcp http command
      = ([ping, tcp, http, command].filterMap fun c => c.bind exceptToOption) ∧
    (∀ e : E,
      GenerateProbes (some (Except.error e)) tcp http command
          = GenerateProbes none tcp http command ∧
      GenerateProbes ping (some (Except.error e)) http command
          = GenerateProbes ping none http command ∧
      GenerateProbes ping tcp (some (Except.error e)) command
          = GenerateProbes ping tcp none command ∧
      GenerateProbes ping tcp http (some (Except.error e))
          = GenerateProbes ping tcp http none) := by
  constructor
  · rcases ping with _ | (e₁ | p₁) <;> rcases tcp with _ | (e₂ | p₂) <;>
      rcases http with _ | (e₃ | p₃) <;> rcases command with _ | (e₄ | p₄) <;>
      simp [GenerateProbes, appendVariant, exceptToOption]
  · intro e
    exact ⟨rfl, rfl, rfl, rfl⟩

end Maprobe
